import Mathlib

/-!
# ScrollViewManager (ReactQt/runtime/src/componentmanagers/scrollviewmanager.cpp)

A shallow embedding of the scroll-view manager: the two static registry maps
(`m_scrollViewByListViewItem`, `m_modelByScrollView`), the child-model
mutations, the attachment routing, the scroll commands and the event payload.

Conventions of the embedding

* `QQuickItem*` is a handle (`Nat`), the null pointer is the handle `0`.
* `int` arguments are `Int`; `qreal`/`double` values are exact rationals.
* A `QMap` is an association list kept sorted by key; `operator[]` on a
  non-const map inserts a default-constructed value for a missing key.
* `QList::insert` (Qt 5) prepends for `i <= 0` and appends for `i >= size()`;
  `QList::takeAt` requires `0 <= i < size()` and asserts otherwise.
* A failed `Q_ASSERT` aborts: the operation yields `none`.
* Every call into the toolkit (property writes, reparenting, deferred
  deletion, layout notification, events sent to JS) is appended, in program
  order, to the `calls` trace of the state. Values read from the toolkit come
  from a read-only `World`.
-/

namespace ScrollViewManager

/-- Handle of a `QQuickItem*`. -/
abbrev QQuickItemPtr := Nat

/-- The null `QQuickItem*`. -/
def nullptr : QQuickItemPtr := 0

/-! ## Qt containers -/

/-- `QList<T>::insert(int i, const T&)` of Qt 5: prepend when `i <= 0`, append when
`i >= size()`, otherwise put the value in front of the element at index `i`. -/
def QList.insert {α : Type} (l : List α) (i : Int) (v : α) : List α :=
  if i ≤ 0 then v :: l
  else if (l.length : Int) ≤ i then l ++ [v]
  else l.take i.toNat ++ v :: l.drop i.toNat

/-- `QList<T>::takeAt(int i)`: removes the item at index `i` and returns it together
with the remaining list; `i` must satisfy `0 <= i < size()` (asserted by Qt). -/
def QList.takeAt {α : Type} (l : List α) (i : Int) : Option (α × List α) :=
  if 0 ≤ i ∧ i < (l.length : Int) then
    match l[i.toNat]? with
    | some x => some (x, l.eraseIdx i.toNat)
    | none => none
  else none

/-- A `QMap<QQuickItem*, V>`: association list ordered by key. -/
abbrev QMap (V : Type) := List (QQuickItemPtr × V)

/-- `QMap::contains`. -/
def QMap.contains {V : Type} (m : QMap V) (k : QQuickItemPtr) : Bool :=
  (m.lookup k).isSome

/-- `QMap::value(key, defaultValue)`. -/
def QMap.value {V : Type} (m : QMap V) (k : QQuickItemPtr) (d : V) : V :=
  (m.lookup k).getD d

/-- `QMap::insert(key, value)`: replaces the value of an existing key, otherwise adds
the pair at its place in key order. -/
def QMap.insert {V : Type} : QMap V → QQuickItemPtr → V → QMap V
  | [], k, v => [(k, v)]
  | (k', v') :: rest, k, v =>
    if k = k' then (k, v) :: rest
    else if k < k' then (k, v) :: (k', v') :: rest
    else (k', v') :: QMap.insert rest k v

/-- The map left behind by the non-const `QMap::operator[]`: a missing key is
inserted with the default-constructed value `d`. The reference it returns reads
as `QMap.value m k d`. -/
def QMap.subscript {V : Type} (m : QMap V) (k : QQuickItemPtr) (d : V) : QMap V :=
  if QMap.contains m k then m else QMap.insert m k d

/-! ## Values, toolkit calls, state -/

/-- The `QVariant` payloads this file writes to properties. -/
inductive QVariant where
  | real (q : ℚ)
  | int (i : Int)
  | itemList (l : List QQuickItemPtr)
  deriving DecidableEq

/-- A two-entry map with keys `x` and `y`. -/
structure PointMap where
  x : ℚ
  y : ℚ
  deriving DecidableEq

/-- A two-entry map with keys `width` and `height`. -/
structure SizeMap where
  width : ℚ
  height : ℚ
  deriving DecidableEq

/-- The `QVariantMap` built by `buildEventData`. -/
structure EventData where
  contentOffset : PointMap
  contentSize : SizeMap
  layoutMeasurement : SizeMap
  zoomScale : Int
  deriving DecidableEq

/-- Calls made into the toolkit and the bridge. -/
inductive Call where
  | writeProperty (obj : QQuickItemPtr) (name : String) (v : QVariant)
  | invokeMethod (obj : QQuickItemPtr) (name : String)
  | setParentItem (item : QQuickItemPtr) (parent : QQuickItemPtr)
  | setParent (item : QQuickItemPtr) (parent : QQuickItemPtr)
  | deleteLater (item : QQuickItemPtr)
  | removeChilds (flexbox : QQuickItemPtr) (indices : List Int)
  | insertChildItemAt (child : QQuickItemPtr) (position : Int) (parent : QQuickItemPtr)
  | notifyJsAboutEvent (tag : Int) (name : String) (data : Option EventData)
  deriving DecidableEq

/-- What the manager reads from the toolkit during one call. -/
structure World where
  viewForTag : Int → QQuickItemPtr
  tag : QQuickItemPtr → Int
  realProperty : QQuickItemPtr → String → ℚ
  boolProperty : QQuickItemPtr → String → Bool
  intProperty : QQuickItemPtr → String → Int
  itemProperty : QQuickItemPtr → String → QQuickItemPtr
  childItems : QQuickItemPtr → List QQuickItemPtr
  findFlexbox : QQuickItemPtr → QQuickItemPtr

/-- The static maps of the manager and the trace of toolkit calls. -/
structure State where
  m_scrollViewByListViewItem : QMap QQuickItemPtr
  m_modelByScrollView : QMap (List QQuickItemPtr)
  calls : List Call
  deriving DecidableEq

/-- The in-memory child model of a surface (`[]` when the surface has no entry). -/
def State.model (s : State) (scrollView : QQuickItemPtr) : List QQuickItemPtr :=
  QMap.value s.m_modelByScrollView scrollView []

/-- The surface a container is bound to (`nullptr` when it has no entry). -/
def State.scrollViewOf (s : State) (item : QQuickItemPtr) : QQuickItemPtr :=
  QMap.value s.m_scrollViewByListViewItem item nullptr

/-- The last list written to the `model` property of `obj` in a trace. -/
def lastModelWrite (obj : QQuickItemPtr) : List Call → Option (List QQuickItemPtr)
  | [] => none
  | Call.writeProperty o name (QVariant.itemList l) :: rest =>
    match lastModelWrite obj rest with
    | some r => some r
    | none => if o = obj ∧ name = "model" then some l else none
  | _ :: rest => lastModelWrite obj rest

/-- The list most recently published to the `model` property of a surface. -/
def State.published (s : State) (scrollView : QQuickItemPtr) : Option (List QQuickItemPtr) :=
  lastModelWrite scrollView s.calls

/-- The writes to a `model` property found in a trace. -/
def modelWrites (cs : List Call) : List Call :=
  cs.filter fun c =>
    match c with
    | Call.writeProperty _ name _ => name = "model"
    | _ => false

/-! ## The manager -/

/-- `ScrollViewManager::isArrayScrollingOptimizationEnabled`. -/
def isArrayScrollingOptimizationEnabled (s : State) (item : QQuickItemPtr) : Bool :=
  QMap.contains s.m_scrollViewByListViewItem item

/-- `ScrollViewManager::arrayScrollingOptimizationEnabled`. -/
def arrayScrollingOptimizationEnabled (w : World) (item : QQuickItemPtr) : Bool :=
  w.boolProperty item "p_enableArrayScrollingOptimization"

/-- `ScrollViewManager::updateListViewItem`. -/
def updateListViewItem (s : State) (item child : QQuickItemPtr) (position : Int) : State :=
  let scrollView := QMap.value s.m_scrollViewByListViewItem item nullptr
  let byItem := QMap.subscript s.m_scrollViewByListViewItem item nullptr
  let variantList := QMap.value s.m_modelByScrollView scrollView []
  let variantList := QList.insert variantList position child
  { m_scrollViewByListViewItem := byItem
    m_modelByScrollView := QMap.insert s.m_modelByScrollView scrollView variantList
    calls := s.calls ++ [Call.writeProperty scrollView "model" (QVariant.itemList variantList)] }

/-- The `foreach` loop of `removeListViewItem`: takes each index in turn from the
list as it then stands; returns the final list and the toolkit calls made. -/
def removeLoop (unregisterAndDelete : Bool) :
    List QQuickItemPtr → List Int → Option (List QQuickItemPtr × List Call)
  | l, [] => some (l, [])
  | l, idx :: rest =>
    match QList.takeAt l idx with
    | none => none
    | some (itemToRemove, l') =>
      match removeLoop unregisterAndDelete l' rest with
      | none => none
      | some (l'', cs) =>
        some (l'', Call.setParentItem itemToRemove nullptr ::
          ((if unregisterAndDelete then
              [Call.setParent itemToRemove nullptr, Call.deleteLater itemToRemove]
            else []) ++ cs))

/-- `ScrollViewManager::removeListViewItem`. -/
def removeListViewItem (w : World) (s : State) (item : QQuickItemPtr)
    (removeAtIndices : List Int) (unregisterAndDelete : Bool) : Option State :=
  if removeAtIndices.isEmpty then some s
  else
    let scrollView := QMap.value s.m_scrollViewByListViewItem item nullptr
    let byItem := QMap.subscript s.m_scrollViewByListViewItem item nullptr
    let variantList := QMap.value s.m_modelByScrollView scrollView []
    match removeLoop unregisterAndDelete variantList removeAtIndices with
    | none => none
    | some (variantList, cs) =>
      let flexbox := w.findFlexbox item
      some
        { m_scrollViewByListViewItem := byItem
          m_modelByScrollView := QMap.insert s.m_modelByScrollView scrollView variantList
          calls := s.calls ++ cs ++
            (if flexbox ≠ nullptr then [Call.removeChilds flexbox removeAtIndices] else []) ++
            [Call.writeProperty scrollView "model" (QVariant.itemList variantList)] }

/-- `ScrollViewManager::scrollViewContentItem`. -/
def scrollViewContentItem (s : State) (item : QQuickItemPtr) (position : Int) :
    Option (QQuickItemPtr × State) :=
  let scrollView := QMap.value s.m_scrollViewByListViewItem item nullptr
  let byItem := QMap.subscript s.m_scrollViewByListViewItem item nullptr
  let variantList := QMap.value s.m_modelByScrollView scrollView []
  if position < (variantList.length : Int) then
    match QList.takeAt variantList position with
    | none => none
    | some (x, variantList) =>
      some (x,
        { m_scrollViewByListViewItem := byItem
          m_modelByScrollView := QMap.insert s.m_modelByScrollView scrollView variantList
          calls := s.calls })
  else none

/-- `ScrollViewManager::addChildItem`. -/
def addChildItem (w : World) (s : State) (scrollView child : QQuickItemPtr) (position : Int) :
    Option State :=
  if arrayScrollingOptimizationEnabled w scrollView then
    let list := QMap.value s.m_modelByScrollView scrollView []
    let list := (w.childItems child).foldl (fun acc item => acc ++ [item]) list
    some
      { m_scrollViewByListViewItem := QMap.insert s.m_scrollViewByListViewItem child scrollView
        m_modelByScrollView := QMap.insert s.m_modelByScrollView scrollView list
        calls := s.calls ++ [Call.writeProperty scrollView "model" (QVariant.itemList list)] }
  else
    let contentItem := w.itemProperty scrollView "contentItem"
    if contentItem ≠ nullptr then
      some { s with calls := s.calls ++ [Call.insertChildItemAt child position contentItem] }
    else none

/-- `ScrollViewManager::buildEventData`. -/
def buildEventData (w : World) (item : QQuickItemPtr) : EventData :=
  { contentOffset :=
      { x := w.realProperty item "contentX" - w.realProperty item "originX"
        y := w.realProperty item "contentY" - w.realProperty item "originY" }
    contentSize :=
      { width := w.realProperty item "contentWidth"
        height := w.realProperty item "contentHeight" }
    layoutMeasurement :=
      { width := w.realProperty item "width"
        height := w.realProperty item "height" }
    zoomScale := 1 }

/-- `ScrollViewManager::scroll`, `item` being the sender of the signal. -/
def scroll (w : World) (s : State) (item : QQuickItemPtr) : Option State :=
  if item ≠ nullptr then
    let scrollFlagSet := w.boolProperty item "p_onScroll"
    if scrollFlagSet then
      some { s with calls := s.calls ++
        [Call.notifyJsAboutEvent (w.tag item) "onScroll" (some (buildEventData w item))] }
    else some s
  else none

/-- `ScrollViewManager::scrollTo`. -/
def scrollTo (w : World) (s : State) (reactTag : Int) (offsetX offsetY : ℚ) (_animated : Bool) :
    Option State :=
  let item := w.viewForTag reactTag
  if item ≠ nullptr then
    some { s with calls := s.calls ++
      [Call.writeProperty item "contentX" (QVariant.real offsetX),
       Call.writeProperty item "contentY" (QVariant.real offsetY)] }
  else none

/-- `ScrollViewManager::scrollToEnd`. -/
def scrollToEnd (w : World) (s : State) (reactTag : Int) (_animated : Bool) : Option State :=
  let item := w.viewForTag reactTag
  if item ≠ nullptr then
    if arrayScrollingOptimizationEnabled w item then
      let scrollViewModelItemsCount := w.intProperty item "count"
      some { s with calls := s.calls ++
        [Call.invokeMethod item "positionViewAtEnd",
         Call.writeProperty item "currentIndex" (QVariant.int (scrollViewModelItemsCount - 1)),
         Call.invokeMethod item "positionViewAtEnd"] }
    else
      let contentHeight := w.realProperty item "contentHeight"
      let height := w.realProperty item "height"
      let newContentY := if contentHeight > height then contentHeight - height else 0
      some { s with calls := s.calls ++
        [Call.writeProperty item "contentY" (QVariant.real newContentY)] }
  else none

/-- Extraction at position 0 repeated `n` times; the items are returned in the order
in which they were extracted. -/
def extractFront (item : QQuickItemPtr) : Nat → State → Option (List QQuickItemPtr × State)
  | 0, s => some ([], s)
  | n + 1, s =>
    match scrollViewContentItem s item 0 with
    | none => none
    | some (x, s') =>
      match extractFront item n s' with
      | none => none
      | some (xs, s'') => some (x :: xs, s'')

/-- The items of `l` whose index, counted from `k`, is not listed in `removed`. -/
def keepUnlisted {α : Type} (removed : List Int) (k : Nat) (l : List α) : List α :=
  ((l.enumFrom k).filter fun p => decide ((p.1 : Int) ∉ removed)).map Prod.snd

/-- Whether every index of `idxs` exists in the list as it stands when that index is
taken, each earlier index having been erased from the list before the next is looked
at. -/
def indicesExist {α : Type} : List α → List Int → Bool
  | _, [] => true
  | l, idx :: rest =>
    decide (0 ≤ idx ∧ idx < (l.length : Int)) && indicesExist (l.eraseIdx idx.toNat) rest

/-! ## Sample data -/

/-- A registry with one container (handle 10) bound to one surface (handle 1) whose
model `[20, 21, 22]` has been published. -/
def sampleState : State :=
  { m_scrollViewByListViewItem := [(10, 1)]
    m_modelByScrollView := [(1, [20, 21, 22])]
    calls := [Call.writeProperty 1 "model" (QVariant.itemList [20, 21, 22])] }

/-- The registry before any call: both maps empty, nothing sent to the toolkit. -/
def emptyState : State :=
  { m_scrollViewByListViewItem := []
    m_modelByScrollView := []
    calls := [] }

/-- A toolkit in which tag 5 resolves to surface 1, a direct-mode surface that
reports scrolling, with the geometry of the onScroll example. -/
def sampleWorld : World :=
  { viewForTag := fun _ => 1
    tag := fun _ => 5
    realProperty := fun _ name =>
      if name = "contentX" then 150 else if name = "originX" then 50
      else if name = "contentY" then 30 else if name = "originY" then 10
      else if name = "contentWidth" then 800 else if name = "contentHeight" then 2000
      else if name = "width" then 400 else if name = "height" then 600 else 0
    boolProperty := fun _ name => decide (name = "p_onScroll")
    intProperty := fun _ _ => 3
    itemProperty := fun _ _ => 2
    childItems := fun _ => [30, 31]
    findFlexbox := fun _ => 4 }

/-- The toolkit of `sampleWorld` with every surface created array-optimized. -/
def arrayWorld : World :=
  { sampleWorld with boolProperty := fun _ _ => true }

/-! ## Lemmas on the containers -/

theorem QMap.lookup_cons_ite {V : Type} (m : QMap V) (k a : QQuickItemPtr) (b : V) :
    List.lookup a ((k, b) :: m) = if a = k then some b else List.lookup a m := by
  rw [List.lookup_cons]
  by_cases h : a = k
  · subst h
    simp
  · have hb : (a == k) = false := by simpa using h
    simp [hb, h]

theorem QMap.lookup_insert {V : Type} (m : QMap V) (k k' : QQuickItemPtr) (v : V) :
    (QMap.insert m k v).lookup k' = if k' = k then some v else m.lookup k' := by
  induction m with
  | nil => simp [QMap.insert, QMap.lookup_cons_ite]
  | cons hd tl ih =>
    obtain ⟨a, b⟩ := hd
    unfold QMap.insert
    by_cases h1 : k = a
    · subst h1
      by_cases h : k' = k <;> simp [QMap.lookup_cons_ite, h]
    · by_cases h2 : k < a
      · by_cases h : k' = k <;> simp [QMap.lookup_cons_ite, h, h1, h2]
      · by_cases h : k' = k
        · subst h
          simp [QMap.lookup_cons_ite, h1, h2, ih]
        · simp [QMap.lookup_cons_ite, h1, h2, ih, h]

theorem QMap.value_insert_self {V : Type} (m : QMap V) (k : QQuickItemPtr) (v d : V) :
    QMap.value (QMap.insert m k v) k d = v := by
  simp [QMap.value, QMap.lookup_insert]

theorem QMap.value_insert_of_ne {V : Type} (m : QMap V) (k k' : QQuickItemPtr) (v d : V)
    (h : k' ≠ k) : QMap.value (QMap.insert m k v) k' d = QMap.value m k' d := by
  simp [QMap.value, QMap.lookup_insert, h]

theorem QMap.contains_insert {V : Type} (m : QMap V) (k k' : QQuickItemPtr) (v : V) :
    QMap.contains (QMap.insert m k v) k' = (decide (k' = k) || QMap.contains m k') := by
  by_cases h : k' = k
  · simp [QMap.contains, QMap.lookup_insert, h]
  · simp [QMap.contains, QMap.lookup_insert, h]

theorem QMap.value_subscript_self {V : Type} (m : QMap V) (k : QQuickItemPtr) (d : V) :
    QMap.value (QMap.subscript m k d) k d = QMap.value m k d := by
  unfold QMap.subscript
  by_cases h : QMap.contains m k = true
  · simp [h]
  · simp only [h]
    rw [if_neg (by simp), QMap.value_insert_self]
    have hn : List.lookup k m = none := by
      cases hl : List.lookup k m with
      | none => rfl
      | some x => simp [QMap.contains, hl] at h
    simp [QMap.value, hn]

theorem QMap.contains_subscript {V : Type} (m : QMap V) (k k' : QQuickItemPtr) (d : V) :
    QMap.contains (QMap.subscript m k d) k' = (decide (k' = k) || QMap.contains m k') := by
  unfold QMap.subscript
  by_cases h : QMap.contains m k = true
  · by_cases h' : k' = k
    · subst h'
      simp [h]
    · simp [h, h']
  · simp only [h]
    rw [if_neg (by simp), QMap.contains_insert]

theorem QList.takeAt_of_valid {α : Type} (l : List α) (i : Int) (h0 : 0 ≤ i)
    (h1 : i < (l.length : Int)) :
    ∃ x, l[i.toNat]? = some x ∧ QList.takeAt l i = some (x, l.eraseIdx i.toNat) := by
  have hlt : i.toNat < l.length := by omega
  refine ⟨l[i.toNat], List.getElem?_eq_getElem hlt, ?_⟩
  simp [QList.takeAt, h0, h1, List.getElem?_eq_getElem hlt]

theorem QList.takeAt_eq_none_iff {α : Type} (l : List α) (i : Int) :
    QList.takeAt l i = none ↔ ¬ (0 ≤ i ∧ i < (l.length : Int)) := by
  constructor
  · intro h hv
    obtain ⟨x, _, hx⟩ := QList.takeAt_of_valid l i hv.1 hv.2
    rw [hx] at h
    exact Option.noConfusion h
  · intro h
    simp [QList.takeAt, h]

theorem QList.insert_eq_take_drop {α : Type} (l : List α) (i : Int) (v : α) :
    QList.insert l i v =
      l.take (max 0 (min i l.length)).toNat ++ v :: l.drop (max 0 (min i l.length)).toNat := by
  unfold QList.insert
  by_cases h1 : i ≤ 0
  · have hk : (max 0 (min i (l.length : Int))).toNat = 0 := by omega
    simp [h1, hk]
  · by_cases h2 : (l.length : Int) ≤ i
    · have hk : (max 0 (min i (l.length : Int))).toNat = l.length := by omega
      simp [h1, h2, hk]
    · have hk : (max 0 (min i (l.length : Int))).toNat = i.toNat := by omega
      simp [h1, h2, hk]

theorem List.length_take_cons_drop {α : Type} (l : List α) (v : α) (k : Nat)
    (hk : k ≤ l.length) : (l.take k ++ v :: l.drop k).length = l.length + 1 := by
  simp [List.length_take, List.length_drop]
  omega

theorem List.getElem?_take_cons_drop_self {α : Type} (l : List α) (v : α) (k : Nat)
    (hk : k ≤ l.length) : (l.take k ++ v :: l.drop k)[k]? = some v := by
  rw [List.getElem?_append_right (by simp [List.length_take, hk])]
  simp [List.length_take, hk]

theorem List.getElem?_take_cons_drop_lt {α : Type} (l : List α) (v : α) (k j : Nat)
    (hk : k ≤ l.length) (hj : j < k) : (l.take k ++ v :: l.drop k)[j]? = l[j]? := by
  rw [List.getElem?_append_left (by simp [List.length_take]; omega)]
  simp [List.getElem?_take, hj]

theorem List.getElem?_take_cons_drop_ge {α : Type} (l : List α) (v : α) (k j : Nat)
    (hk : k ≤ l.length) (hj : k ≤ j) : (l.take k ++ v :: l.drop k)[j + 1]? = l[j]? := by
  rw [List.getElem?_append_right (by simp [List.length_take]; omega)]
  have hidx : j + 1 - (List.take k l).length = (j - k) + 1 := by
    simp [List.length_take]
    omega
  rw [hidx]
  simp
  congr 1
  omega

theorem keepUnlisted_nil {α : Type} (removed : List Int) (k : Nat) :
    keepUnlisted removed k ([] : List α) = [] := by
  simp [keepUnlisted]

theorem keepUnlisted_cons {α : Type} (removed : List Int) (k : Nat) (x : α) (xs : List α) :
    keepUnlisted removed k (x :: xs) =
      if (k : Int) ∈ removed then keepUnlisted removed (k + 1) xs
      else x :: keepUnlisted removed (k + 1) xs := by
  by_cases h : (k : Int) ∈ removed
  · simp [keepUnlisted, List.enumFrom_cons, List.filter_cons, h]
  · simp [keepUnlisted, List.enumFrom_cons, List.filter_cons, h]

theorem keepUnlisted_of_lt {α : Type} (removed : List Int) (l : List α) :
    ∀ k : Nat, (∀ r ∈ removed, r < (k : Int)) → keepUnlisted removed k l = l := by
  induction l with
  | nil => intro k _; exact keepUnlisted_nil removed k
  | cons x xs ih =>
    intro k hk
    have hnot : ¬ (k : Int) ∈ removed := fun hmem => by
      have := hk _ hmem
      omega
    rw [keepUnlisted_cons, if_neg hnot, ih (k + 1)]
    intro r hr
    have := hk r hr
    push_cast
    omega

theorem keepUnlisted_eraseIdx {α : Type} (rest : List Int) (l : List α) :
    ∀ (k j : Nat), j < l.length → (∀ r ∈ rest, r < ((k + j : Nat) : Int)) →
      keepUnlisted rest k (l.eraseIdx j) = keepUnlisted (((k + j : Nat) : Int) :: rest) k l := by
  induction l with
  | nil => intro k j hj; simp at hj
  | cons x xs ih =>
    intro k j hj hr
    cases j with
    | zero =>
      simp only [List.eraseIdx_cons_zero, Nat.add_zero]
      rw [keepUnlisted_of_lt rest xs k (by simpa using hr), keepUnlisted_cons,
        if_pos (List.mem_cons_self _ _), keepUnlisted_of_lt]
      intro r hmem
      rcases List.mem_cons.mp hmem with h | h
      · subst h
        push_cast
        omega
      · have := hr r h
        push_cast at this ⊢
        omega
    | succ j =>
      simp only [List.eraseIdx_cons_succ]
      have hih := ih (k + 1) j (by simpa using hj) (by
        intro r hmem
        have := hr r hmem
        push_cast at this ⊢
        omega)
      have hidx : k + 1 + j = k + (j + 1) := by omega
      rw [hidx] at hih
      rw [keepUnlisted_cons, keepUnlisted_cons, hih]
      have hne : (k : Int) ≠ ((k + (j + 1) : Nat) : Int) := by
        push_cast
        omega
      have hiff : ((k : Int) ∈ ((k + (j + 1) : Nat) : Int) :: rest) ↔ (k : Int) ∈ rest := by
        rw [List.mem_cons]
        exact ⟨fun h => h.resolve_left hne, Or.inr⟩
      by_cases hk : (k : Int) ∈ rest
      · rw [if_pos hk, if_pos (hiff.mpr hk)]
      · rw [if_neg hk, if_neg (fun h => hk (hiff.mp h))]

theorem removeLoop_descending (unregisterAndDelete : Bool) :
    ∀ (idxs : List Int) (l : List QQuickItemPtr), idxs.Pairwise (fun a b => a > b) →
      (∀ i ∈ idxs, 0 ≤ i ∧ i < (l.length : Int)) →
      (∃ cs, removeLoop unregisterAndDelete l idxs =
        some (idxs.foldl (fun acc i => acc.eraseIdx i.toNat) l, cs)) ∧
      (idxs.foldl (fun acc i => acc.eraseIdx i.toNat) l).length + idxs.length = l.length ∧
      idxs.foldl (fun acc i => acc.eraseIdx i.toNat) l = keepUnlisted idxs 0 l := by
  intro idxs
  induction idxs with
  | nil =>
    intro l _ _
    exact ⟨⟨[], rfl⟩, rfl, (keepUnlisted_of_lt [] l 0 (by simp)).symm⟩
  | cons i rest ih =>
    intro l hp hr
    obtain ⟨hgt, hprest⟩ := List.pairwise_cons.mp hp
    obtain ⟨h0, h1⟩ := hr i (List.mem_cons_self _ _)
    have hlt : i.toNat < l.length := by omega
    have hlen : (l.eraseIdx i.toNat).length = l.length - 1 := by
      rw [List.length_eraseIdx, if_pos hlt]
    have hrest : ∀ r ∈ rest, 0 ≤ r ∧ r < ((l.eraseIdx i.toNat).length : Int) := by
      intro r hmem
      have hri := hgt r hmem
      have hr0 := (hr r (List.mem_cons_of_mem _ hmem)).1
      rw [hlen]
      omega
    obtain ⟨⟨cs, hcs⟩, hl, hk⟩ := ih (l.eraseIdx i.toNat) hprest hrest
    obtain ⟨x, _, hx⟩ := QList.takeAt_of_valid l i h0 h1
    refine ⟨?_, ?_, ?_⟩
    · simp [removeLoop, hx, hcs]
    · simp only [List.foldl_cons, List.length_cons]
      omega
    · simp only [List.foldl_cons]
      rw [hk, keepUnlisted_eraseIdx rest l 0 i.toNat hlt]
      · have hcast : ((0 + i.toNat : Nat) : Int) = i := by omega
        rw [hcast]
      · intro r hmem
        have hri := hgt r hmem
        omega

/-! ## Lemmas on the operations -/

theorem updateListViewItem_model (s : State) (item child : QQuickItemPtr) (position : Int) :
    (updateListViewItem s item child position).model (s.scrollViewOf item) =
      QList.insert (s.model (s.scrollViewOf item)) position child := by
  simp [updateListViewItem, State.model, State.scrollViewOf, QMap.value_insert_self]

theorem scrollViewContentItem_of_valid (s : State) (item : QQuickItemPtr) (p : Int)
    (h0 : 0 ≤ p) (h1 : p < ((s.model (s.scrollViewOf item)).length : Int)) :
    ∃ x, (s.model (s.scrollViewOf item))[p.toNat]? = some x ∧
      scrollViewContentItem s item p = some (x,
        { m_scrollViewByListViewItem := QMap.subscript s.m_scrollViewByListViewItem item nullptr
          m_modelByScrollView := QMap.insert s.m_modelByScrollView (s.scrollViewOf item)
            ((s.model (s.scrollViewOf item)).eraseIdx p.toNat)
          calls := s.calls }) := by
  obtain ⟨x, hx, ht⟩ := QList.takeAt_of_valid _ p h0 h1
  refine ⟨x, hx, ?_⟩
  simp only [State.model, State.scrollViewOf] at h1 ht ⊢
  simp [scrollViewContentItem, h1, ht]

theorem extractFront_drains (item : QQuickItemPtr) :
    ∀ (n : Nat) (s : State), (s.model (s.scrollViewOf item)).length = n →
      ∃ sEnd, extractFront item n s = some (s.model (s.scrollViewOf item), sEnd) ∧
        sEnd.model (s.scrollViewOf item) = [] := by
  intro n
  induction n with
  | zero =>
    intro s hlen
    exact ⟨s, by simp [extractFront, List.length_eq_zero.mp hlen], List.length_eq_zero.mp hlen⟩
  | succ n ih =>
    intro s hlen
    obtain ⟨x, hx, hs⟩ := scrollViewContentItem_of_valid s item 0 (le_refl 0) (by omega)
    cases hl : s.model (s.scrollViewOf item) with
    | nil => simp [hl] at hlen
    | cons y ys =>
      rw [hl] at hx hs hlen
      simp only [Int.toNat_zero, List.getElem?_cons_zero, Option.some.injEq] at hx
      subst hx
      simp only [Int.toNat_zero, List.eraseIdx_cons_zero] at hs
      have hsv : State.scrollViewOf
          { m_scrollViewByListViewItem := QMap.subscript s.m_scrollViewByListViewItem item nullptr
            m_modelByScrollView := QMap.insert s.m_modelByScrollView (s.scrollViewOf item) ys
            calls := s.calls } item = s.scrollViewOf item := by
        simp [State.scrollViewOf, QMap.value_subscript_self]
      have hm : State.model
          { m_scrollViewByListViewItem := QMap.subscript s.m_scrollViewByListViewItem item nullptr
            m_modelByScrollView := QMap.insert s.m_modelByScrollView (s.scrollViewOf item) ys
            calls := s.calls } (s.scrollViewOf item) = ys := by
        simp [State.model, QMap.value_insert_self]
      obtain ⟨sEnd, he, hempty⟩ := ih _ (by rw [hsv, hm]; simpa using hlen)
      rw [hsv, hm] at he
      rw [hsv] at hempty
      exact ⟨sEnd, by simp [extractFront, hs, he], hempty⟩

theorem removeListViewItem_of_loop (w : World) (s : State) (item : QQuickItemPtr)
    (idxs : List Int) (unregisterAndDelete : Bool) (l' : List QQuickItemPtr) (cs : List Call)
    (hne : idxs ≠ [])
    (hloop : removeLoop unregisterAndDelete (s.model (s.scrollViewOf item)) idxs = some (l', cs)) :
    removeListViewItem w s item idxs unregisterAndDelete = some
      { m_scrollViewByListViewItem := QMap.subscript s.m_scrollViewByListViewItem item nullptr
        m_modelByScrollView := QMap.insert s.m_modelByScrollView (s.scrollViewOf item) l'
        calls := s.calls ++ cs ++
          (if w.findFlexbox item ≠ nullptr then [Call.removeChilds (w.findFlexbox item) idxs]
            else []) ++
          [Call.writeProperty (s.scrollViewOf item) "model" (QVariant.itemList l')] } := by
  have hemp : idxs.isEmpty = false := by
    cases idxs with
    | nil => exact absurd rfl hne
    | cons a t => rfl
  simp only [State.model, State.scrollViewOf] at hloop ⊢
  simp only [removeListViewItem, hemp, Bool.false_eq_true, if_false, hloop]

theorem removeListViewItem_of_loop_none (w : World) (s : State) (item : QQuickItemPtr)
    (idxs : List Int) (unregisterAndDelete : Bool) (hne : idxs ≠ [])
    (hloop : removeLoop unregisterAndDelete (s.model (s.scrollViewOf item)) idxs = none) :
    removeListViewItem w s item idxs unregisterAndDelete = none := by
  have hemp : idxs.isEmpty = false := by
    cases idxs with
    | nil => exact absurd rfl hne
    | cons a t => rfl
  simp only [State.model, State.scrollViewOf] at hloop
  simp only [removeListViewItem, hemp, Bool.false_eq_true, if_false, hloop]

theorem removeLoop_append_none (unregisterAndDelete : Bool) (post : List Int) :
    ∀ (pre : List Int) (l l' : List QQuickItemPtr) (cs : List Call),
      removeLoop unregisterAndDelete l pre = some (l', cs) →
      removeLoop unregisterAndDelete l' post = none →
      removeLoop unregisterAndDelete l (pre ++ post) = none := by
  intro pre
  induction pre with
  | nil =>
    intro l l' cs hpre hpost
    simp only [removeLoop, Option.some.injEq, Prod.mk.injEq] at hpre
    rw [List.nil_append, hpre.1]
    exact hpost
  | cons i rest ih =>
    intro l l' cs hpre hpost
    simp only [List.cons_append, removeLoop] at hpre ⊢
    cases ht : QList.takeAt l i with
    | none => rfl
    | some r =>
      obtain ⟨x, l1⟩ := r
      rw [ht] at hpre
      simp only at hpre ⊢
      cases hrest : removeLoop unregisterAndDelete l1 rest with
      | none => simp [hrest] at hpre
      | some r2 =>
        obtain ⟨l2, cs2⟩ := r2
        rw [hrest] at hpre
        simp only [Option.some.injEq, Prod.mk.injEq] at hpre
        have h2 : l2 = l' := hpre.1
        subst h2
        have h3 := ih l1 l2 cs2 hrest hpost
        simp only [List.append_eq, h3]

theorem lastModelWrite_append_write (obj : QQuickItemPtr) (l : List QQuickItemPtr) :
    ∀ cs : List Call,
      lastModelWrite obj (cs ++ [Call.writeProperty obj "model" (QVariant.itemList l)]) =
        some l := by
  intro cs
  induction cs with
  | nil => simp [lastModelWrite]
  | cons c rest ih =>
    cases c with
    | writeProperty o name v =>
      cases v with
      | itemList l0 => simp [lastModelWrite, ih]
      | real q => simp [lastModelWrite, ih]
      | int i => simp [lastModelWrite, ih]
    | invokeMethod o name => simp [lastModelWrite, ih]
    | setParentItem a b => simp [lastModelWrite, ih]
    | setParent a b => simp [lastModelWrite, ih]
    | deleteLater a => simp [lastModelWrite, ih]
    | removeChilds a b => simp [lastModelWrite, ih]
    | insertChildItemAt a b c => simp [lastModelWrite, ih]
    | notifyJsAboutEvent a b c => simp [lastModelWrite, ih]

theorem foldl_append_singleton {α : Type} (xs : List α) :
    ∀ acc : List α, xs.foldl (fun acc item => acc ++ [item]) acc = acc ++ xs := by
  induction xs with
  | nil => intro acc; simp
  | cons x rest ih => intro acc; simp [ih]

/-- Insertion publishes the list it has just stored. -/
theorem updateListViewItem_published (s : State) (item child : QQuickItemPtr) (position : Int) :
    (updateListViewItem s item child position).published (s.scrollViewOf item) =
      some ((updateListViewItem s item child position).model (s.scrollViewOf item)) := by
  simp [updateListViewItem, State.published, State.model, State.scrollViewOf,
    QMap.value_insert_self, lastModelWrite_append_write]

/-- A removal with a non-empty index list that succeeds publishes the list it has
just stored. -/
theorem removeListViewItem_published (w : World) (s s' : State) (item : QQuickItemPtr)
    (idxs : List Int) (unregisterAndDelete : Bool) (hne : idxs ≠ [])
    (h : removeListViewItem w s item idxs unregisterAndDelete = some s') :
    s'.published (s.scrollViewOf item) = some (s'.model (s.scrollViewOf item)) := by
  cases hloop : removeLoop unregisterAndDelete (s.model (s.scrollViewOf item)) idxs with
  | none =>
    rw [removeListViewItem_of_loop_none w s item idxs unregisterAndDelete hne hloop] at h
    exact Option.noConfusion h
  | some r =>
    obtain ⟨l', cs⟩ := r
    rw [removeListViewItem_of_loop w s item idxs unregisterAndDelete l' cs hne hloop] at h
    simp only [Option.some.injEq] at h
    subst h
    simp only [State.published, State.model, QMap.value_insert_self]
    exact lastModelWrite_append_write _ _ _

/-- No operation removes a key from the container map. -/
theorem isArrayScrollingOptimizationEnabled_updateListViewItem (s : State)
    (item child c : QQuickItemPtr) (position : Int) :
    isArrayScrollingOptimizationEnabled (updateListViewItem s item child position) c =
      (decide (c = item) || isArrayScrollingOptimizationEnabled s c) := by
  simp [isArrayScrollingOptimizationEnabled, updateListViewItem, QMap.contains_subscript]

theorem addChildItem_direct (w : World) (s : State) (scrollView child : QQuickItemPtr)
    (position : Int) (hflag : arrayScrollingOptimizationEnabled w scrollView = false)
    (hcontent : w.itemProperty scrollView "contentItem" ≠ nullptr) :
    addChildItem w s scrollView child position = some
      { s with calls := s.calls ++
          [Call.insertChildItemAt child position (w.itemProperty scrollView "contentItem")] } := by
  simp [addChildItem, hflag, hcontent]

theorem addChildItem_array (w : World) (s : State) (scrollView child : QQuickItemPtr)
    (position : Int) (hflag : arrayScrollingOptimizationEnabled w scrollView = true) :
    addChildItem w s scrollView child position = some
      { m_scrollViewByListViewItem := QMap.insert s.m_scrollViewByListViewItem child scrollView
        m_modelByScrollView := QMap.insert s.m_modelByScrollView scrollView
          (s.model scrollView ++ w.childItems child)
        calls := s.calls ++ [Call.writeProperty scrollView "model"
          (QVariant.itemList (s.model scrollView ++ w.childItems child))] } := by
  simp [addChildItem, hflag, foldl_append_singleton, State.model]

/-- A successful extraction leaves every registered container registered. -/
theorem isArrayScrollingOptimizationEnabled_scrollViewContentItem (s s' : State)
    (item c x : QQuickItemPtr) (position : Int)
    (h : scrollViewContentItem s item position = some (x, s')) :
    isArrayScrollingOptimizationEnabled s' c =
      (decide (c = item) || isArrayScrollingOptimizationEnabled s c) := by
  by_cases hv : 0 ≤ position ∧ position < ((s.model (s.scrollViewOf item)).length : Int)
  · obtain ⟨y, _, hy⟩ := scrollViewContentItem_of_valid s item position hv.1 hv.2
    rw [hy] at h
    simp only [Option.some.injEq, Prod.mk.injEq] at h
    rw [← h.2]
    simp [isArrayScrollingOptimizationEnabled, QMap.contains_subscript]
  · have htake : QList.takeAt (s.model (s.scrollViewOf item)) position = none :=
      (QList.takeAt_eq_none_iff _ _).mpr hv
    simp only [State.model, State.scrollViewOf] at htake
    simp only [scrollViewContentItem, htake] at h
    split at h <;> exact Option.noConfusion h

/-- A successful removal leaves every registered container registered. -/
theorem isArrayScrollingOptimizationEnabled_removeListViewItem (w : World) (s s' : State)
    (item c : QQuickItemPtr) (idxs : List Int) (unregisterAndDelete : Bool)
    (h : removeListViewItem w s item idxs unregisterAndDelete = some s')
    (hc : isArrayScrollingOptimizationEnabled s c = true) :
    isArrayScrollingOptimizationEnabled s' c = true := by
  by_cases hne : idxs = []
  · subst hne
    simp only [removeListViewItem, List.isEmpty_nil, if_true, Option.some.injEq] at h
    rw [← h]
    exact hc
  · cases hloop : removeLoop unregisterAndDelete (s.model (s.scrollViewOf item)) idxs with
    | none =>
      rw [removeListViewItem_of_loop_none w s item idxs unregisterAndDelete hne hloop] at h
      exact Option.noConfusion h
    | some r =>
      obtain ⟨l', cs⟩ := r
      rw [removeListViewItem_of_loop w s item idxs unregisterAndDelete l' cs hne hloop] at h
      simp only [Option.some.injEq] at h
      rw [← h]
      simp only [isArrayScrollingOptimizationEnabled] at hc ⊢
      simp [QMap.contains_subscript, hc]

/-- A successful attachment leaves every registered container registered. -/
theorem isArrayScrollingOptimizationEnabled_addChildItem (w : World) (s s' : State)
    (scrollView child c : QQuickItemPtr) (position : Int)
    (h : addChildItem w s scrollView child position = some s')
    (hc : isArrayScrollingOptimizationEnabled s c = true) :
    isArrayScrollingOptimizationEnabled s' c = true := by
  by_cases hflag : arrayScrollingOptimizationEnabled w scrollView = true
  · rw [addChildItem_array w s scrollView child position hflag] at h
    simp only [Option.some.injEq] at h
    rw [← h]
    simp only [isArrayScrollingOptimizationEnabled] at hc ⊢
    simp [QMap.contains_insert, hc]
  · have hfalse : arrayScrollingOptimizationEnabled w scrollView = false := by
      simpa using hflag
    by_cases hcontent : w.itemProperty scrollView "contentItem" ≠ nullptr
    · rw [addChildItem_direct w s scrollView child position hfalse hcontent] at h
      simp only [Option.some.injEq] at h
      rw [← h]
      exact hc
    · simp [addChildItem, hfalse, hcontent] at h

theorem QList.takeAt_eq_some {α : Type} (l l1 : List α) (i : Int) (x : α)
    (h : QList.takeAt l i = some (x, l1)) :
    (0 ≤ i ∧ i < (l.length : Int)) ∧ l1 = l.eraseIdx i.toNat := by
  by_cases hv : 0 ≤ i ∧ i < (l.length : Int)
  · obtain ⟨y, _, hy⟩ := QList.takeAt_of_valid l i hv.1 hv.2
    rw [hy] at h
    simp only [Option.some.injEq, Prod.mk.injEq] at h
    exact ⟨hv, h.2.symm⟩
  · rw [(QList.takeAt_eq_none_iff l i).mpr hv] at h
    exact Option.noConfusion h

/-- The loop erases the indices one after the other, each from the list left by the
removals before it. -/
theorem removeLoop_eq_foldl (unregisterAndDelete : Bool) :
    ∀ (idxs : List Int) (l l' : List QQuickItemPtr) (cs : List Call),
      removeLoop unregisterAndDelete l idxs = some (l', cs) →
      l' = idxs.foldl (fun acc i => acc.eraseIdx i.toNat) l := by
  intro idxs
  induction idxs with
  | nil =>
    intro l l' cs h
    simp only [removeLoop, Option.some.injEq, Prod.mk.injEq] at h
    exact h.1.symm
  | cons i rest ih =>
    intro l l' cs h
    simp only [removeLoop] at h
    cases ht : QList.takeAt l i with
    | none => simp [ht] at h
    | some r =>
      obtain ⟨x, l1⟩ := r
      rw [ht] at h
      simp only at h
      cases hrest : removeLoop unregisterAndDelete l1 rest with
      | none => simp [hrest] at h
      | some r2 =>
        obtain ⟨l2, cs2⟩ := r2
        rw [hrest] at h
        simp only [Option.some.injEq, Prod.mk.injEq] at h
        have hl1 := (QList.takeAt_eq_some l l1 i x ht).2
        rw [List.foldl_cons, ← hl1, ← ih l1 l2 cs2 hrest]
        exact h.1.symm

/-- The loop runs to its end exactly when every index exists in the list as it stands
when that index is taken. -/
theorem removeLoop_isSome (unregisterAndDelete : Bool) :
    ∀ (idxs : List Int) (l : List QQuickItemPtr),
      (removeLoop unregisterAndDelete l idxs).isSome = indicesExist l idxs := by
  intro idxs
  induction idxs with
  | nil => intro l; rfl
  | cons i rest ih =>
    intro l
    by_cases hv : 0 ≤ i ∧ i < (l.length : Int)
    · obtain ⟨x, _, hx⟩ := QList.takeAt_of_valid l i hv.1 hv.2
      have hrec := ih (l.eraseIdx i.toNat)
      cases hrest : removeLoop unregisterAndDelete (l.eraseIdx i.toNat) rest with
      | none =>
        rw [hrest] at hrec
        simp only [removeLoop, hx, hrest, indicesExist, hv, ← hrec]
        rfl
      | some r =>
        rw [hrest] at hrec
        simp only [removeLoop, hx, hrest, indicesExist, hv, ← hrec]
        rfl
    · have hx := (QList.takeAt_eq_none_iff l i).mpr hv
      simp [removeLoop, hx, indicesExist, hv]

/-! ## Claims -/

/-- C1: at a valid position `p` (`0 <= p < length`) `scrollViewContentItem` returns the
item that was at index `p` and leaves the in-memory model equal to the original list
with index `p` erased, one item shorter; extracting at position 0 as many times as the
model is long returns the items in their original front-to-back order and leaves the
model empty. -/
theorem scrollViewContentItem_extracts (s : State) (item : QQuickItemPtr) (p : Int)
    (h0 : 0 ≤ p) (h1 : p < ((s.model (s.scrollViewOf item)).length : Int)) :
    (∃ x s', scrollViewContentItem s item p = some (x, s') ∧
      (s.model (s.scrollViewOf item))[p.toNat]? = some x ∧
      s'.model (s.scrollViewOf item) = (s.model (s.scrollViewOf item)).eraseIdx p.toNat ∧
      (s'.model (s.scrollViewOf item)).length + 1 = (s.model (s.scrollViewOf item)).length) ∧
    (∃ sEnd, extractFront item (s.model (s.scrollViewOf item)).length s =
        some (s.model (s.scrollViewOf item), sEnd) ∧
      sEnd.model (s.scrollViewOf item) = []) := by
  refine ⟨?_, extractFront_drains item _ s rfl⟩
  obtain ⟨x, hx, hs⟩ := scrollViewContentItem_of_valid s item p h0 h1
  refine ⟨x, _, hs, hx, ?_, ?_⟩
  · simp [State.model, QMap.value_insert_self]
  · have hlt : p.toNat < (s.model (s.scrollViewOf item)).length := by omega
    simp only [State.model, QMap.value_insert_self] at hlt ⊢
    rw [List.length_eraseIdx]
    simp only [hlt, if_true]
    omega

/-- Witness of C1 on the sample registry: extraction at position 1 of `[20, 21, 22]`. -/
theorem scrollViewContentItem_extracts_witness :
    ((0 : Int) ≤ 1 ∧ (1 : Int) < ((sampleState.model (sampleState.scrollViewOf 10)).length : Int)) ∧
    ((∃ x s', scrollViewContentItem sampleState 10 1 = some (x, s') ∧
      (sampleState.model (sampleState.scrollViewOf 10))[(1 : Int).toNat]? = some x ∧
      s'.model (sampleState.scrollViewOf 10) =
        (sampleState.model (sampleState.scrollViewOf 10)).eraseIdx (1 : Int).toNat ∧
      (s'.model (sampleState.scrollViewOf 10)).length + 1 =
        (sampleState.model (sampleState.scrollViewOf 10)).length) ∧
    (∃ sEnd, extractFront 10 (sampleState.model (sampleState.scrollViewOf 10)).length sampleState =
        some (sampleState.model (sampleState.scrollViewOf 10), sEnd) ∧
      sEnd.model (sampleState.scrollViewOf 10) = [])) :=
  ⟨⟨by decide, by decide⟩, scrollViewContentItem_extracts sampleState 10 1 (by decide) (by decide)⟩

/-- C3: `updateListViewItem` on a model of length `n` yields a model of length `n + 1`
with the child at index `clamp(position, 0, n)`, the items before that index
unchanged and the items from that index on shifted up by one; a position below 0
behaves as 0 and a position above `n` behaves as `n`. -/
theorem updateListViewItem_inserts_clamped (s : State) (item child : QQuickItemPtr)
    (position : Int) :
    ((updateListViewItem s item child position).model (s.scrollViewOf item)).length =
      (s.model (s.scrollViewOf item)).length + 1 ∧
    ((updateListViewItem s item child position).model (s.scrollViewOf item))[
      (max 0 (min position (s.model (s.scrollViewOf item)).length)).toNat]? = some child ∧
    (∀ j : Nat, j < (max 0 (min position (s.model (s.scrollViewOf item)).length)).toNat →
      ((updateListViewItem s item child position).model (s.scrollViewOf item))[j]? =
        (s.model (s.scrollViewOf item))[j]?) ∧
    (∀ j : Nat, (max 0 (min position (s.model (s.scrollViewOf item)).length)).toNat ≤ j →
      ((updateListViewItem s item child position).model (s.scrollViewOf item))[j + 1]? =
        (s.model (s.scrollViewOf item))[j]?) ∧
    (position < 0 → updateListViewItem s item child position = updateListViewItem s item child 0) ∧
    ((s.model (s.scrollViewOf item)).length < position →
      updateListViewItem s item child position =
        updateListViewItem s item child (s.model (s.scrollViewOf item)).length) := by
  have hk : (max 0 (min position ((s.model (s.scrollViewOf item)).length : Int))).toNat ≤
      (s.model (s.scrollViewOf item)).length := by omega
  rw [updateListViewItem_model, QList.insert_eq_take_drop]
  refine ⟨List.length_take_cons_drop _ _ _ hk, List.getElem?_take_cons_drop_self _ _ _ hk,
    fun j hj => List.getElem?_take_cons_drop_lt _ _ _ _ hk hj,
    fun j hj => List.getElem?_take_cons_drop_ge _ _ _ _ hk hj, ?_, ?_⟩
  · intro hneg
    have e : QList.insert (s.model (s.scrollViewOf item)) position child =
        QList.insert (s.model (s.scrollViewOf item)) 0 child := by
      simp [QList.insert, le_of_lt hneg]
    simp only [State.model, State.scrollViewOf] at e
    simp [updateListViewItem, e]
  · intro hbig
    have e : QList.insert (s.model (s.scrollViewOf item)) position child =
        QList.insert (s.model (s.scrollViewOf item)) (s.model (s.scrollViewOf item)).length child := by
      have hidx : (max 0 (min position ((s.model (s.scrollViewOf item)).length : Int))).toNat =
          (max 0 (min ((s.model (s.scrollViewOf item)).length : Int)
            ((s.model (s.scrollViewOf item)).length : Int))).toNat := by omega
      rw [QList.insert_eq_take_drop, QList.insert_eq_take_drop, hidx]
    simp only [State.model, State.scrollViewOf] at e
    simp [updateListViewItem, State.model, State.scrollViewOf, e]

/-- Witness of C3: on the sample model `[20, 21, 22]` position -3 behaves as 0 and
position 7 behaves as 3. -/
theorem updateListViewItem_inserts_clamped_witness :
    ((-3 : Int) < 0 ∧
      updateListViewItem sampleState 10 99 (-3) = updateListViewItem sampleState 10 99 0) ∧
    ((((sampleState.model (sampleState.scrollViewOf 10)).length : Nat) : Int) < 7 ∧
      updateListViewItem sampleState 10 99 7 =
        updateListViewItem sampleState 10 99 (sampleState.model (sampleState.scrollViewOf 10)).length) ∧
    (updateListViewItem sampleState 10 99 7).model 1 = [20, 21, 22, 99] ∧
    (updateListViewItem sampleState 10 99 1).model 1 = [20, 99, 21, 22] :=
  ⟨⟨by decide, (updateListViewItem_inserts_clamped sampleState 10 99 (-3)).2.2.2.2.1 (by decide)⟩,
    ⟨by decide, (updateListViewItem_inserts_clamped sampleState 10 99 7).2.2.2.2.2 (by decide)⟩,
    by decide, by decide⟩

/-- C4: `removeListViewItem` takes each index, in the order given, from the list as
it stands after the earlier removals: for every index list it succeeds exactly when
each index exists in the list as it then stands, and the model it leaves is the
original model with the indices erased one after the other, each from the list left
by the erasures before it. Therefore, for distinct in-range indices sorted in
descending order, the resulting model is the original model without the items at
those original indices, the remaining items in their original order, and it is
shorter by the number of indices. -/
theorem removeListViewItem_descending (w : World) (s : State) (item : QQuickItemPtr)
    (idxs : List Int) (unregisterAndDelete : Bool) :
    (removeListViewItem w s item idxs unregisterAndDelete).isSome =
      indicesExist (s.model (s.scrollViewOf item)) idxs ∧
    (∀ s', removeListViewItem w s item idxs unregisterAndDelete = some s' →
      s'.model (s.scrollViewOf item) =
        idxs.foldl (fun acc i => acc.eraseIdx i.toNat) (s.model (s.scrollViewOf item))) ∧
    (idxs.Pairwise (fun a b => a > b) →
      (∀ i ∈ idxs, 0 ≤ i ∧ i < ((s.model (s.scrollViewOf item)).length : Int)) →
      ∃ s', removeListViewItem w s item idxs unregisterAndDelete = some s' ∧
        s'.model (s.scrollViewOf item) =
          idxs.foldl (fun acc i => acc.eraseIdx i.toNat) (s.model (s.scrollViewOf item)) ∧
        s'.model (s.scrollViewOf item) = keepUnlisted idxs 0 (s.model (s.scrollViewOf item)) ∧
        (s'.model (s.scrollViewOf item)).length + idxs.length =
          (s.model (s.scrollViewOf item)).length) := by
  refine ⟨?_, ?_, ?_⟩
  · by_cases hne : idxs = []
    · subst hne
      simp [removeListViewItem, indicesExist]
    · rw [← removeLoop_isSome unregisterAndDelete idxs (s.model (s.scrollViewOf item))]
      cases hloop : removeLoop unregisterAndDelete (s.model (s.scrollViewOf item)) idxs with
      | none =>
        rw [removeListViewItem_of_loop_none w s item idxs unregisterAndDelete hne hloop]
        rfl
      | some r =>
        obtain ⟨l', cs⟩ := r
        rw [removeListViewItem_of_loop w s item idxs unregisterAndDelete l' cs hne hloop]
        rfl
  · intro s' hs'
    by_cases hne : idxs = []
    · subst hne
      simp only [removeListViewItem, List.isEmpty_nil, if_true, Option.some.injEq] at hs'
      rw [← hs']
      rfl
    · cases hloop : removeLoop unregisterAndDelete (s.model (s.scrollViewOf item)) idxs with
      | none =>
        rw [removeListViewItem_of_loop_none w s item idxs unregisterAndDelete hne hloop] at hs'
        exact Option.noConfusion hs'
      | some r =>
        obtain ⟨l', cs⟩ := r
        rw [removeListViewItem_of_loop w s item idxs unregisterAndDelete l' cs hne hloop] at hs'
        simp only [Option.some.injEq] at hs'
        rw [← hs']
        simp only [State.model, QMap.value_insert_self]
        exact removeLoop_eq_foldl unregisterAndDelete idxs _ l' cs hloop
  · intro hsorted hrange
    obtain ⟨⟨cs, hcs⟩, hl, hk⟩ :=
      removeLoop_descending unregisterAndDelete idxs (s.model (s.scrollViewOf item)) hsorted hrange
    cases hi : idxs with
    | nil =>
      refine ⟨s, by simp [removeListViewItem], rfl, ?_, rfl⟩
      exact (keepUnlisted_of_lt [] _ 0 (by simp)).symm
    | cons i rest =>
      rw [hi] at hcs hl hk
      refine ⟨_, removeListViewItem_of_loop w s item (i :: rest) unregisterAndDelete _ cs
        (List.cons_ne_nil _ _) hcs, ?_, ?_, ?_⟩
      · simp [State.model, QMap.value_insert_self]
      · simp only [State.model, QMap.value_insert_self]
        exact hk
      · simp only [State.model, QMap.value_insert_self]
        exact hl

/-- Witness of C4 on the sample model `[20, 21, 22]`: the descending indices `[2, 0]`
leave `[21]`; the ascending indices `[0, 1]` are taken from the list as it then
stands and also leave `[21]` (items 20 and 22 are removed, not 20 and 21); the
indices `[0, 2]` fail, index 2 no longer existing once index 0 has been taken. -/
theorem removeListViewItem_descending_witness :
    ((([2, 0] : List Int).Pairwise (fun a b => a > b) ∧
      ∀ i ∈ ([2, 0] : List Int),
        0 ≤ i ∧ i < ((sampleState.model (sampleState.scrollViewOf 10)).length : Int)) ∧
    ∃ s', removeListViewItem sampleWorld sampleState 10 [2, 0] true = some s' ∧
      s'.model (sampleState.scrollViewOf 10) =
        ([2, 0] : List Int).foldl (fun acc i => acc.eraseIdx i.toNat)
          (sampleState.model (sampleState.scrollViewOf 10)) ∧
      s'.model (sampleState.scrollViewOf 10) =
        keepUnlisted [2, 0] 0 (sampleState.model (sampleState.scrollViewOf 10)) ∧
      (s'.model (sampleState.scrollViewOf 10)).length + ([2, 0] : List Int).length =
        (sampleState.model (sampleState.scrollViewOf 10)).length) ∧
    (∃ s', removeListViewItem sampleWorld sampleState 10 [0, 1] true = some s' ∧
      s'.model (sampleState.scrollViewOf 10) =
        ([0, 1] : List Int).foldl (fun acc i => acc.eraseIdx i.toNat)
          (sampleState.model (sampleState.scrollViewOf 10)) ∧
      ([0, 1] : List Int).foldl (fun acc i => acc.eraseIdx i.toNat)
          (sampleState.model (sampleState.scrollViewOf 10)) = [21]) ∧
    ((removeListViewItem sampleWorld sampleState 10 [0, 2] true).isSome =
        indicesExist (sampleState.model (sampleState.scrollViewOf 10)) [0, 2] ∧
      indicesExist (sampleState.model (sampleState.scrollViewOf 10)) [0, 2] = false) :=
  ⟨⟨⟨by decide, by decide⟩,
      (removeListViewItem_descending sampleWorld sampleState 10 [2, 0] true).2.2
        (by decide) (by decide)⟩,
    ⟨_, rfl, (removeListViewItem_descending sampleWorld sampleState 10 [0, 1] true).2.1 _ rfl,
      by decide⟩,
    ⟨(removeListViewItem_descending sampleWorld sampleState 10 [0, 2] true).1, by decide⟩⟩

/-- C5: `removeListViewItem` with an empty index list returns at once: the state,
that is both maps (hence every in-memory model) and the trace of toolkit calls
(detaching, deferred deletion, layout notification, property writes), is the state
it was given, for either value of `unregisterAndDelete`. -/
theorem removeListViewItem_empty_noop (w : World) (s : State) (item : QQuickItemPtr)
    (unregisterAndDelete : Bool) :
    removeListViewItem w s item [] unregisterAndDelete = some s ∧
    ∀ s', removeListViewItem w s item [] unregisterAndDelete = some s' →
      s'.m_scrollViewByListViewItem = s.m_scrollViewByListViewItem ∧
      s'.m_modelByScrollView = s.m_modelByScrollView ∧
      (∀ scrollView, s'.model scrollView = s.model scrollView) ∧
      s'.calls = s.calls := by
  have h : removeListViewItem w s item [] unregisterAndDelete = some s := by
    simp [removeListViewItem]
  refine ⟨h, ?_⟩
  intro s' hs'
  rw [h] at hs'
  simp only [Option.some.injEq] at hs'
  subst hs'
  exact ⟨rfl, rfl, fun _ => rfl, rfl⟩

/-- C6: `addChildItem` routes by `arrayScrollingOptimizationEnabled`. With the flag
false (and a content container present) the only effect is the call
`insertChildItemAt child position contentItem`: both maps are unchanged and no model
is written. With the flag true the children of `child` are appended in order to the
model of the surface, that model is written to the surface, `child` becomes a key
bound to the surface, and `insertChildItemAt` is not called. -/
theorem addChildItem_routes (w : World) (s : State) (scrollView child : QQuickItemPtr)
    (position : Int) :
    (arrayScrollingOptimizationEnabled w scrollView = false →
      w.itemProperty scrollView "contentItem" ≠ nullptr →
      ∃ s', addChildItem w s scrollView child position = some s' ∧
        s'.calls = s.calls ++
          [Call.insertChildItemAt child position (w.itemProperty scrollView "contentItem")] ∧
        s'.m_scrollViewByListViewItem = s.m_scrollViewByListViewItem ∧
        s'.m_modelByScrollView = s.m_modelByScrollView ∧
        modelWrites s'.calls = modelWrites s.calls) ∧
    (arrayScrollingOptimizationEnabled w scrollView = true →
      ∃ s', addChildItem w s scrollView child position = some s' ∧
        s'.model scrollView = s.model scrollView ++ w.childItems child ∧
        s'.calls = s.calls ++
          [Call.writeProperty scrollView "model" (QVariant.itemList (s'.model scrollView))] ∧
        s'.published scrollView = some (s'.model scrollView) ∧
        isArrayScrollingOptimizationEnabled s' child = true ∧
        s'.scrollViewOf child = scrollView) := by
  constructor
  · intro hflag hcontent
    refine ⟨_, addChildItem_direct w s scrollView child position hflag hcontent,
      rfl, rfl, rfl, ?_⟩
    simp [modelWrites, List.filter_append]
  · intro hflag
    refine ⟨_, addChildItem_array w s scrollView child position hflag, ?_, ?_, ?_, ?_, ?_⟩
    · simp [State.model, QMap.value_insert_self]
    · simp [State.model, QMap.value_insert_self]
    · simp only [State.published, State.model, QMap.value_insert_self]
      exact lastModelWrite_append_write _ _ _
    · simp [isArrayScrollingOptimizationEnabled, QMap.contains_insert]
    · simp [State.scrollViewOf, QMap.value_insert_self]

/-- Witness of C6: a direct-mode attachment in `sampleWorld` and an array-optimized
attachment in `arrayWorld`. -/
theorem addChildItem_routes_witness :
    ((arrayScrollingOptimizationEnabled sampleWorld 1 = false ∧
      sampleWorld.itemProperty 1 "contentItem" ≠ nullptr) ∧
      ∃ s', addChildItem sampleWorld sampleState 1 40 0 = some s' ∧
        s'.calls = sampleState.calls ++
          [Call.insertChildItemAt 40 0 (sampleWorld.itemProperty 1 "contentItem")] ∧
        s'.m_scrollViewByListViewItem = sampleState.m_scrollViewByListViewItem ∧
        s'.m_modelByScrollView = sampleState.m_modelByScrollView ∧
        modelWrites s'.calls = modelWrites sampleState.calls) ∧
    (arrayScrollingOptimizationEnabled arrayWorld 1 = true ∧
      ∃ s', addChildItem arrayWorld sampleState 1 40 0 = some s' ∧
        s'.model 1 = sampleState.model 1 ++ arrayWorld.childItems 40 ∧
        s'.calls = sampleState.calls ++
          [Call.writeProperty 1 "model" (QVariant.itemList (s'.model 1))] ∧
        s'.published 1 = some (s'.model 1) ∧
        isArrayScrollingOptimizationEnabled s' 40 = true ∧
        s'.scrollViewOf 40 = 1) :=
  ⟨⟨⟨by decide, by decide⟩,
      (addChildItem_routes sampleWorld sampleState 1 40 0).1 (by decide) (by decide)⟩,
    ⟨by decide, (addChildItem_routes arrayWorld sampleState 1 40 0).2 (by decide)⟩⟩

/-- C7: a scroll tick of a surface sends exactly one `onScroll` event, carrying
`buildEventData`, when `p_onScroll` is true and sends nothing when it is false; the
payload is contentOffset = (contentX - originX, contentY - originY), contentSize =
(contentWidth, contentHeight), layoutMeasurement = (width, height), zoomScale = 1,
which for contentX=150, originX=50, contentY=30, originY=10, contentWidth=800,
contentHeight=2000, width=400, height=600 is (100, 20), (800, 2000), (400, 600), 1. -/
theorem scroll_emits_onScroll (w : World) (s : State) (item : QQuickItemPtr)
    (hitem : item ≠ nullptr) :
    (w.boolProperty item "p_onScroll" = true →
      scroll w s item = some { s with calls := s.calls ++
        [Call.notifyJsAboutEvent (w.tag item) "onScroll" (some (buildEventData w item))] }) ∧
    (w.boolProperty item "p_onScroll" = false → scroll w s item = some s) ∧
    buildEventData w item =
      { contentOffset :=
          { x := w.realProperty item "contentX" - w.realProperty item "originX"
            y := w.realProperty item "contentY" - w.realProperty item "originY" }
        contentSize :=
          { width := w.realProperty item "contentWidth"
            height := w.realProperty item "contentHeight" }
        layoutMeasurement :=
          { width := w.realProperty item "width"
            height := w.realProperty item "height" }
        zoomScale := 1 } ∧
    (w.realProperty item "contentX" = 150 → w.realProperty item "originX" = 50 →
      w.realProperty item "contentY" = 30 → w.realProperty item "originY" = 10 →
      w.realProperty item "contentWidth" = 800 → w.realProperty item "contentHeight" = 2000 →
      w.realProperty item "width" = 400 → w.realProperty item "height" = 600 →
      buildEventData w item =
        { contentOffset := { x := 100, y := 20 }
          contentSize := { width := 800, height := 2000 }
          layoutMeasurement := { width := 400, height := 600 }
          zoomScale := 1 }) := by
  refine ⟨?_, ?_, rfl, ?_⟩
  · intro hflag
    simp [scroll, hitem, hflag]
  · intro hflag
    simp [scroll, hitem, hflag]
  · intro hx hox hy hoy hcw hch hw hh
    simp only [buildEventData, hx, hox, hy, hoy, hcw, hch, hw, hh]
    norm_num

/-- Witness of C7: the onScroll example in `sampleWorld`, where `p_onScroll` is set. -/
theorem scroll_emits_onScroll_witness :
    ((1 : QQuickItemPtr) ≠ nullptr ∧ sampleWorld.boolProperty 1 "p_onScroll" = true) ∧
    scroll sampleWorld emptyState 1 = some { emptyState with calls := emptyState.calls ++
      [Call.notifyJsAboutEvent (sampleWorld.tag 1) "onScroll"
        (some (buildEventData sampleWorld 1))] } ∧
    buildEventData sampleWorld 1 =
      { contentOffset := { x := 100, y := 20 }
        contentSize := { width := 800, height := 2000 }
        layoutMeasurement := { width := 400, height := 600 }
        zoomScale := 1 } :=
  ⟨⟨by decide, by decide⟩,
    (scroll_emits_onScroll sampleWorld emptyState 1 (by decide)).1 (by decide),
    (scroll_emits_onScroll sampleWorld emptyState 1 (by decide)).2.2.2
      (by simp [sampleWorld]) (by simp [sampleWorld]) (by simp [sampleWorld])
      (by simp [sampleWorld]) (by simp [sampleWorld]) (by simp [sampleWorld])
      (by simp [sampleWorld]) (by simp [sampleWorld])⟩

/-- C8: in direct mode `scrollToEnd` makes one toolkit call, the write of
`max 0 (contentHeight - height)` to `contentY` (so `contentX` is not written); the
written offset is never negative, is 0 when `contentHeight <= height` and is
`contentHeight - height` when `contentHeight > height`. -/
theorem scrollToEnd_direct (w : World) (s : State) (reactTag : Int) (animated : Bool)
    (hview : w.viewForTag reactTag ≠ nullptr)
    (hdirect : arrayScrollingOptimizationEnabled w (w.viewForTag reactTag) = false) :
    scrollToEnd w s reactTag animated = some { s with calls := s.calls ++
      [Call.writeProperty (w.viewForTag reactTag) "contentY"
        (QVariant.real (max 0 (w.realProperty (w.viewForTag reactTag) "contentHeight" -
          w.realProperty (w.viewForTag reactTag) "height")))] } ∧
    0 ≤ max 0 (w.realProperty (w.viewForTag reactTag) "contentHeight" -
      w.realProperty (w.viewForTag reactTag) "height") ∧
    (w.realProperty (w.viewForTag reactTag) "contentHeight" ≤
        w.realProperty (w.viewForTag reactTag) "height" →
      max 0 (w.realProperty (w.viewForTag reactTag) "contentHeight" -
        w.realProperty (w.viewForTag reactTag) "height") = 0) ∧
    (w.realProperty (w.viewForTag reactTag) "contentHeight" >
        w.realProperty (w.viewForTag reactTag) "height" →
      max 0 (w.realProperty (w.viewForTag reactTag) "contentHeight" -
        w.realProperty (w.viewForTag reactTag) "height") =
        w.realProperty (w.viewForTag reactTag) "contentHeight" -
          w.realProperty (w.viewForTag reactTag) "height") := by
  refine ⟨?_, le_max_left _ _, ?_, ?_⟩
  · by_cases hgt : w.realProperty (w.viewForTag reactTag) "contentHeight" >
        w.realProperty (w.viewForTag reactTag) "height"
    · have hmax : max 0 (w.realProperty (w.viewForTag reactTag) "contentHeight" -
          w.realProperty (w.viewForTag reactTag) "height") =
          w.realProperty (w.viewForTag reactTag) "contentHeight" -
            w.realProperty (w.viewForTag reactTag) "height" :=
        max_eq_right (by linarith)
      simp [scrollToEnd, hview, hdirect, hgt, hmax]
    · have hmax : max 0 (w.realProperty (w.viewForTag reactTag) "contentHeight" -
          w.realProperty (w.viewForTag reactTag) "height") = 0 :=
        max_eq_left (by linarith)
      simp [scrollToEnd, hview, hdirect, hgt, hmax]
  · intro hle
    exact max_eq_left (by linarith)
  · intro hgt
    exact max_eq_right (by linarith)

/-- Witness of C8: `scrollToEnd` on tag 5 of `sampleWorld`, a direct-mode surface. -/
theorem scrollToEnd_direct_witness :
    (sampleWorld.viewForTag 5 ≠ nullptr ∧
      arrayScrollingOptimizationEnabled sampleWorld (sampleWorld.viewForTag 5) = false) ∧
    (scrollToEnd sampleWorld emptyState 5 false = some { emptyState with calls :=
      emptyState.calls ++
      [Call.writeProperty (sampleWorld.viewForTag 5) "contentY"
        (QVariant.real (max 0 (sampleWorld.realProperty (sampleWorld.viewForTag 5) "contentHeight" -
          sampleWorld.realProperty (sampleWorld.viewForTag 5) "height")))] } ∧
    0 ≤ max 0 (sampleWorld.realProperty (sampleWorld.viewForTag 5) "contentHeight" -
      sampleWorld.realProperty (sampleWorld.viewForTag 5) "height") ∧
    (sampleWorld.realProperty (sampleWorld.viewForTag 5) "contentHeight" ≤
        sampleWorld.realProperty (sampleWorld.viewForTag 5) "height" →
      max 0 (sampleWorld.realProperty (sampleWorld.viewForTag 5) "contentHeight" -
        sampleWorld.realProperty (sampleWorld.viewForTag 5) "height") = 0) ∧
    (sampleWorld.realProperty (sampleWorld.viewForTag 5) "contentHeight" >
        sampleWorld.realProperty (sampleWorld.viewForTag 5) "height" →
      max 0 (sampleWorld.realProperty (sampleWorld.viewForTag 5) "contentHeight" -
        sampleWorld.realProperty (sampleWorld.viewForTag 5) "height") =
        sampleWorld.realProperty (sampleWorld.viewForTag 5) "contentHeight" -
          sampleWorld.realProperty (sampleWorld.viewForTag 5) "height")) :=
  ⟨⟨by decide, by decide⟩, scrollToEnd_direct sampleWorld emptyState 5 false (by decide) (by decide)⟩

/-- C9: `scrollViewContentItem` fails, returning no item, exactly when the position is
not an existing index of the model (`position < 0` or `position >= length`); and
`removeListViewItem` fails whenever some index of its list is not an existing index
of the list as it stands, after the removals before it, when that index is taken. -/
theorem out_of_range_index_fails (w : World) (s : State) (item : QQuickItemPtr)
    (unregisterAndDelete : Bool) :
    (∀ position : Int, scrollViewContentItem s item position = none ↔
      (position < 0 ∨ ((s.model (s.scrollViewOf item)).length : Int) ≤ position)) ∧
    (∀ (pre post : List Int) (idx : Int) (l' : List QQuickItemPtr) (cs : List Call),
      removeLoop unregisterAndDelete (s.model (s.scrollViewOf item)) pre = some (l', cs) →
      (idx < 0 ∨ (l'.length : Int) ≤ idx) →
      removeListViewItem w s item (pre ++ idx :: post) unregisterAndDelete = none) := by
  constructor
  · intro position
    constructor
    · intro hnone
      by_contra hvalid
      obtain ⟨x, _, hx⟩ := scrollViewContentItem_of_valid s item position (by omega) (by omega)
      rw [hx] at hnone
      exact Option.noConfusion hnone
    · intro hbad
      have htake : QList.takeAt (s.model (s.scrollViewOf item)) position = none :=
        (QList.takeAt_eq_none_iff _ _).mpr (by omega)
      simp only [State.model, State.scrollViewOf] at htake
      simp only [scrollViewContentItem, htake]
      split <;> rfl
  · intro pre post idx l' cs hpre hbad
    have htake : QList.takeAt l' idx = none := (QList.takeAt_eq_none_iff _ _).mpr (by omega)
    have hpost : removeLoop unregisterAndDelete l' (idx :: post) = none := by
      simp [removeLoop, htake]
    exact removeListViewItem_of_loop_none w s item _ unregisterAndDelete (by simp)
      (removeLoop_append_none unregisterAndDelete _ pre _ l' cs hpre hpost)

/-- Witness of C9 on the sample model `[20, 21, 22]`: extraction fails at positions 3
and -1, and removing `[0, 2]` fails because index 2 no longer exists once index 0
has been taken. -/
theorem out_of_range_index_fails_witness :
    scrollViewContentItem sampleState 10 3 = none ∧
    scrollViewContentItem sampleState 10 (-1) = none ∧
    (removeLoop true (sampleState.model (sampleState.scrollViewOf 10)) [0] =
        some ([21, 22], [Call.setParentItem 20 nullptr, Call.setParent 20 nullptr,
          Call.deleteLater 20]) ∧
      ((2 : Int) < 0 ∨ ((([21, 22] : List QQuickItemPtr).length : Nat) : Int) ≤ 2)) ∧
    removeListViewItem sampleWorld sampleState 10 ([0] ++ 2 :: []) true = none :=
  ⟨((out_of_range_index_fails sampleWorld sampleState 10 true).1 3).mpr (by decide),
    ((out_of_range_index_fails sampleWorld sampleState 10 true).1 (-1)).mpr (by decide),
    ⟨by decide, by decide⟩,
    (out_of_range_index_fails sampleWorld sampleState 10 true).2 [0] [] 2 [21, 22]
      [Call.setParentItem 20 nullptr, Call.setParent 20 nullptr, Call.deleteLater 20]
      (by decide) (by decide)⟩

/-- C2 on the code: after `scrollViewContentItem` takes item 20 from the sample model
`[20, 21, 22]`, the in-memory model is `[21, 22]` while the list most recently written
to the surface is still `[20, 21, 22]`: extraction does not write the `model`
property, unlike `updateListViewItem`, `removeListViewItem` and `addChildItem`. -/
theorem scrollViewContentItem_does_not_publish :
    sampleState.published 1 = some (sampleState.model 1) ∧
    ∃ s', scrollViewContentItem sampleState 10 0 = some (20, s') ∧
      s'.calls = sampleState.calls ∧
      s'.model 1 = [21, 22] ∧
      s'.published 1 = some [20, 21, 22] ∧
      s'.published 1 ≠ some (s'.model 1) ∧
      (s'.model 1).length = 2 ∧ (s'.published 1).map List.length = some 3 := by
  refine ⟨by decide, _, rfl, ?_⟩
  decide

/-- C10 on the code: `updateListViewItem` called with container 10, which was never
attached, leaves 10 registered (bound to the null surface), so
`isArrayScrollingOptimizationEnabled` turns from false to true. -/
theorem updateListViewItem_registers_container :
    isArrayScrollingOptimizationEnabled emptyState 10 = false ∧
    isArrayScrollingOptimizationEnabled (updateListViewItem emptyState 10 20 0) 10 = true ∧
    (updateListViewItem emptyState 10 20 0).scrollViewOf 10 = nullptr ∧
    (updateListViewItem emptyState 10 20 0).m_scrollViewByListViewItem = [(10, nullptr)] ∧
    (updateListViewItem emptyState 10 20 0).m_modelByScrollView = [(nullptr, [20])] := by
  decide

end ScrollViewManager
